import Mathlib

/-!
Verification development for the ig-calisthenics-corpus-builder core:
the deterministic final sampler, the persisted final-sample lifecycle,
the stagnation tracker, the per-owner dominance guard, the term queue,
the dedup key, the raw-item upsert, and the feedback-loop controller
skeleton, embedded shallowly from the Python sources.
-/

set_option linter.unusedVariables false

namespace IgCorpus

/-- Model of Python `str.strip()`: drop whitespace from both ends.  Written
over the character list so that it evaluates by kernel reduction. -/
def pyStrip (s : String) : String :=
  String.mk (((s.data.dropWhile Char.isWhitespace).reverse.dropWhile
    Char.isWhitespace).reverse)

/-- Model of Python `str.casefold` (adequate for the ASCII terms and owner
names the claims exercise): lower-casing, written over the character list so
that it evaluates by kernel reduction. -/
def caseFold (s : String) : String := String.mk (s.data.map Char.toLower)

/-- Errors surfaced by the embedded operations: Python `ValueError` and the
repository's `StorageError`. -/
inductive ErrC where
  | valueError (msg : String)
  | storageError (msg : String)
deriving DecidableEq, Repr

instance {ε α : Type} [DecidableEq ε] [DecidableEq α] : DecidableEq (Except ε α) :=
  fun x y =>
    match x, y with
    | .ok a, .ok b => decidable_of_iff (a = b) (by simp)
    | .error a, .error b => decidable_of_iff (a = b) (by simp)
    | .ok _, .error _ => isFalse (by simp)
    | .error _, .ok _ => isFalse (by simp)

/-! ### Final sampler (src/ig_corpus/final_sample.py) -/

/-- Model of the deterministic pseudo-random word stream behind Python's
`random.Random(seed)`: a 64-bit linear congruential step.  The development
relies only on the stream being a pure function of the seed. -/
def lcgNext (s : Nat) : Nat :=
  (6364136223846793005 * s + 1442695040888963407) % (2 ^ 64)

/-- Model of drawing an index below `n` from the stream, returning the index
and the advanced stream state. -/
def randBelow (s n : Nat) : Nat × Nat :=
  let s2 := lcgNext s
  (if n = 0 then 0 else s2 % n, s2)

/-- Model of the selection loop of `random.Random.sample`: draw `k` elements
without replacement by repeatedly picking a pseudo-random index into the
remaining pool and removing the picked element. -/
def sampleAux : Nat → List String → Nat → List String
  | 0, _, _ => []
  | k + 1, pool, s =>
    let jr := randBelow s pool.length
    pool.getD jr.1 "" :: sampleAux k (pool.eraseIdx jr.1) jr.2

/-- Model of `random.Random(int(seed)).sample(pool, k)`: a deterministic,
seeded sample of `k` distinct positions of `pool`, without replacement. -/
def randomSample (pool : List String) (k : Nat) (seed : Nat) : List String :=
  sampleAux k pool seed

/-- Embedding of `final_sample.pick_final_keys`: empty result for a
non-positive target or an empty pool; otherwise a seeded sample of
`min final_n (pool size)` keys, returned as a set. -/
def pick_final_keys (pool_keys : List String) (final_n : Int) (seed : Int) :
    Finset String :=
  if final_n ≤ 0 ∨ pool_keys = [] then ∅
  else
    (randomSample pool_keys (min final_n.toNat pool_keys.length) seed.natAbs).toFinset

/-- Model of `final_sample.pool_keys_sha256`: the SHA-256 digest of the
order-preserving JSON serialization of the pool keys.  The digest is modelled
by the serialization itself (an injective stand-in); the development relies
only on its determinism and order sensitivity. -/
def pool_keys_sha256 (pool_keys : List String) : String :=
  "[" ++ String.intercalate "," (pool_keys.map (fun k => "\"" ++ k ++ "\"")) ++ "]"

/-- Embedding of `final_sample.FinalSampleMeta`. -/
structure FinalSampleMeta where
  run_id : String
  sampling_seed : Int
  pool_n : Int
  final_n : Int
  pool_keys_sha256 : String
  created_at : String
deriving DecidableEq, Repr

/-- Embedding of the two final-sample tables of the SQLite store:
`final_sample_runs` (rows unique on run_id) and `final_samples`
(membership pairs, unique on (run_id, post_key)). -/
structure FinalStore where
  final_sample_runs : List FinalSampleMeta
  final_samples : Finset (String × String)
deriving DecidableEq

/-- Embedding of `final_sample.load_final_sample_meta`. -/
def load_final_sample_meta (store : FinalStore) (run_id : String) :
    Except ErrC (Option FinalSampleMeta) :=
  let rid := pyStrip run_id
  if rid = "" then .error (.valueError "run_id must be non-empty")
  else .ok (store.final_sample_runs.find? (fun m => m.run_id == rid))

/-- Embedding of `final_sample.load_final_sample_keys`. -/
def load_final_sample_keys (store : FinalStore) (run_id : String) :
    Except ErrC (Finset String) :=
  let rid := pyStrip run_id
  if rid = "" then .error (.valueError "run_id must be non-empty")
  else .ok ((store.final_samples.filter (fun p => p.1 = rid)).image Prod.snd)

/-- Embedding of `final_sample.ensure_final_sample`.  The wall clock read by
`_utc_now_iso` is threaded in as `now`.  If a persisted sample exists for the
run, it is returned as stored; otherwise the sample is computed, optionally
persisted (INSERT OR IGNORE on both tables, in one transaction), read back and
verified against the expected metadata. -/
def ensure_final_sample (store : FinalStore) (run_id : String)
    (pool_keys : List String) (sampling_seed : Int) (pool_n : Int)
    (final_n : Int) (persist : Bool) (now : String) :
    Except ErrC (FinalStore × Finset String × Option FinalSampleMeta) :=
  let rid := pyStrip run_id
  if rid = "" then .error (.valueError "run_id must be non-empty")
  else
    match store.final_sample_runs.find? (fun m => m.run_id == rid) with
    | some existing =>
      .ok (store, (store.final_samples.filter (fun p => p.1 = rid)).image Prod.snd,
        some existing)
    | none =>
      let keys := pick_final_keys pool_keys final_n sampling_seed
      if persist = false then .ok (store, keys, none)
      else
        let meta : FinalSampleMeta :=
          { run_id := rid, sampling_seed := sampling_seed, pool_n := pool_n,
            final_n := final_n, pool_keys_sha256 := pool_keys_sha256 pool_keys,
            created_at := now }
        let runs2 :=
          if (store.final_sample_runs.find? (fun m => m.run_id == rid)).isSome then
            store.final_sample_runs
          else store.final_sample_runs ++ [meta]
        let store2 : FinalStore :=
          { final_sample_runs := runs2,
            final_samples := store.final_samples ∪ keys.image (fun k => (rid, k)) }
        match store2.final_sample_runs.find? (fun m => m.run_id == rid) with
        | none => .error (.storageError "Failed to read final sample metadata after insert")
        | some stored =>
          if stored.sampling_seed ≠ meta.sampling_seed ∨ stored.pool_n ≠ meta.pool_n ∨
              stored.final_n ≠ meta.final_n ∨
              stored.pool_keys_sha256 ≠ meta.pool_keys_sha256 then
            .error (.storageError "Persisted final sample metadata did not match expected values")
          else .ok (store2, keys, some stored)

/-! ### Sampler lemmas -/

lemma randBelow_lt (s n : Nat) (h : 0 < n) : (randBelow s n).1 < n := by
  simp only [randBelow]
  rw [if_neg (Nat.pos_iff_ne_zero.mp h)]
  exact Nat.mod_lt _ h

lemma sampleAux_length (k : Nat) (pool : List String) (s : Nat) (h : k ≤ pool.length) :
    (sampleAux k pool s).length = k := by
  induction k generalizing pool s with
  | zero => rfl
  | succ k ih =>
    have hpos : 0 < pool.length := Nat.lt_of_lt_of_le (Nat.succ_pos k) h
    have hj : (randBelow s pool.length).1 < pool.length := randBelow_lt _ _ hpos
    have hlen : (pool.eraseIdx (randBelow s pool.length).1).length = pool.length - 1 := by
      rw [List.length_eraseIdx]; simp [hj]
    simp only [sampleAux, List.length_cons]
    rw [ih _ _ (by omega)]

lemma sampleAux_coe_le (k : Nat) (pool : List String) (s : Nat) (h : k ≤ pool.length) :
    (↑(sampleAux k pool s) : Multiset String) ≤ ↑pool := by
  induction k generalizing pool s with
  | zero => simp [sampleAux]
  | succ k ih =>
    have hpos : 0 < pool.length := Nat.lt_of_lt_of_le (Nat.succ_pos k) h
    have hj : (randBelow s pool.length).1 < pool.length := randBelow_lt _ _ hpos
    have hperm :
        pool.Perm (pool[(randBelow s pool.length).1] ::
          pool.eraseIdx (randBelow s pool.length).1) :=
      (List.perm_cons_erase (pool.getElem_mem hj)).trans ((List.erase_getElem hj).cons _)
    have hlen : (pool.eraseIdx (randBelow s pool.length).1).length = pool.length - 1 := by
      rw [List.length_eraseIdx]; simp [hj]
    have htail :
        (↑(sampleAux k (pool.eraseIdx (randBelow s pool.length).1)
            (randBelow s pool.length).2) : Multiset String) ≤
          ↑(pool.eraseIdx (randBelow s pool.length).1) := ih _ _ (by omega)
    have hD : pool.getD (randBelow s pool.length).1 "" =
        pool[(randBelow s pool.length).1] := by
      simp [List.getD, List.getElem?_eq_getElem hj]
    calc (↑(sampleAux (k + 1) pool s) : Multiset String)
        = pool.getD (randBelow s pool.length).1 "" ::ₘ
            ↑(sampleAux k (pool.eraseIdx (randBelow s pool.length).1)
              (randBelow s pool.length).2) := by
          simp [sampleAux]
      _ ≤ pool.getD (randBelow s pool.length).1 "" ::ₘ
            ↑(pool.eraseIdx (randBelow s pool.length).1) :=
          Multiset.cons_le_cons _ htail
      _ = ↑pool := by
          rw [hD, Multiset.cons_coe, Multiset.coe_eq_coe]
          exact hperm.symm

lemma sampleAux_coe_eq (pool : List String) (s : Nat) :
    (↑(sampleAux pool.length pool s) : Multiset String) = ↑pool :=
  Multiset.eq_of_le_of_card_le (sampleAux_coe_le _ _ _ le_rfl)
    (by rw [Multiset.coe_card, Multiset.coe_card, sampleAux_length _ _ _ le_rfl])

lemma randomSample_nodup (pool : List String) (k s : Nat) (h : k ≤ pool.length)
    (hnd : pool.Nodup) : (randomSample pool k s).Nodup := by
  have := Multiset.nodup_of_le (sampleAux_coe_le k pool s h)
    (by simpa [Multiset.coe_nodup] using hnd)
  simpa [randomSample, Multiset.coe_nodup] using this

lemma randomSample_subset (pool : List String) (k s : Nat) (h : k ≤ pool.length) :
    ∀ x ∈ randomSample pool k s, x ∈ pool := by
  intro x hx
  have hle := sampleAux_coe_le k pool s h
  have := Multiset.subset_of_le hle
  simpa using this (by simpa [randomSample] using hx)

/-- C1: the final sampler is deterministic (a pure function of the ordered
pool, the target and the seed); when the target is at least the pool size it
selects the whole pool; otherwise it selects a seeded sample without
replacement of exactly `final_n` keys, all drawn from the pool. -/
theorem pick_final_keys_spec (pool : List String) (final_n seed : Int)
    (hnd : pool.Nodup) :
    pick_final_keys pool final_n seed = pick_final_keys pool final_n seed ∧
    ((pool.length : Int) ≤ final_n → pick_final_keys pool final_n seed = pool.toFinset) ∧
    (0 < final_n → final_n ≤ (pool.length : Int) →
      (pick_final_keys pool final_n seed).card = final_n.toNat ∧
      pick_final_keys pool final_n seed ⊆ pool.toFinset) := by
  refine ⟨rfl, ?_, ?_⟩
  · intro hge
    by_cases hnil : pool = []
    · subst hnil; simp [pick_final_keys]
    · have hlen : 0 < pool.length := List.length_pos.mpr hnil
      have hpos : 0 < final_n := lt_of_lt_of_le (by exact_mod_cast hlen) hge
      rw [pick_final_keys, if_neg (by push_neg; exact ⟨hpos, hnil⟩)]
      have hmin : min final_n.toNat pool.length = pool.length := by omega
      rw [hmin]
      have hms := sampleAux_coe_eq pool seed.natAbs
      have hfin : (↑(randomSample pool pool.length seed.natAbs) :
          Multiset String).toFinset = (↑pool : Multiset String).toFinset :=
        congrArg Multiset.toFinset hms
      simpa [List.toFinset_coe] using hfin
  · intro hpos hle
    have hnil : pool ≠ [] := by
      intro hcon
      rw [hcon] at hle
      simp at hle
      omega
    rw [pick_final_keys, if_neg (by push_neg; exact ⟨hpos, hnil⟩)]
    have hmin : min final_n.toNat pool.length = final_n.toNat := by omega
    rw [hmin]
    have hkle : final_n.toNat ≤ pool.length := by omega
    constructor
    · rw [List.toFinset_card_of_nodup (randomSample_nodup pool _ _ hkle hnd)]
      exact sampleAux_length _ _ _ hkle
    · intro x hx
      rw [List.mem_toFinset] at hx ⊢
      exact randomSample_subset pool _ _ hkle x hx

/-- C1 witness: a concrete ten-key pool with target 3 and seed 42 satisfies the
hypotheses and the sampler picks exactly 3 keys from the pool; a target of 12
selects the whole pool. -/
theorem pick_final_keys_spec_witness :
    (["k1", "k2", "k3", "k4", "k5", "k6", "k7", "k8", "k9", "k10"] : List String).Nodup ∧
    ((pick_final_keys ["k1", "k2", "k3", "k4", "k5", "k6", "k7", "k8", "k9", "k10"] 3 42).card =
        (3 : Int).toNat ∧
      pick_final_keys ["k1", "k2", "k3", "k4", "k5", "k6", "k7", "k8", "k9", "k10"] 3 42 ⊆
        (["k1", "k2", "k3", "k4", "k5", "k6", "k7", "k8", "k9", "k10"] : List String).toFinset) ∧
    pick_final_keys ["k1", "k2", "k3", "k4", "k5", "k6", "k7", "k8", "k9", "k10"] 12 42 =
      (["k1", "k2", "k3", "k4", "k5", "k6", "k7", "k8", "k9", "k10"] : List String).toFinset := by
  have hnd : (["k1", "k2", "k3", "k4", "k5", "k6", "k7", "k8", "k9", "k10"] :
      List String).Nodup := by decide
  refine ⟨hnd, ?_, ?_⟩
  · exact (pick_final_keys_spec _ 3 42 hnd).2.2 (by decide) (by decide)
  · exact (pick_final_keys_spec _ 12 42 hnd).2.1 (by decide)

/-! ### Final-sample lifecycle (C2, C3) -/

/-- C2: if a persisted final sample exists for the run id, ensure_final_sample
returns exactly the stored member set and stored metadata, leaves the store
unchanged, and its result is independent of the pool keys, seed, sizes,
persist flag and clock passed in. -/
theorem ensure_final_sample_existing_returns_stored (store : FinalStore)
    (run_id : String) (m : FinalSampleMeta) (pool_keys : List String)
    (sampling_seed pool_n final_n : Int) (persist : Bool) (now : String)
    (hrid : ¬pyStrip run_id = "")
    (hex : store.final_sample_runs.find? (fun x => x.run_id == pyStrip run_id) = some m) :
    ensure_final_sample store run_id pool_keys sampling_seed pool_n final_n persist now =
      .ok (store,
        (store.final_samples.filter (fun p => p.1 = pyStrip run_id)).image Prod.snd,
        some m) ∧
    load_final_sample_keys store run_id =
      .ok ((store.final_samples.filter (fun p => p.1 = pyStrip run_id)).image Prod.snd) ∧
    load_final_sample_meta store run_id = .ok (some m) := by
  refine ⟨?_, ?_, ?_⟩
  · simp only [ensure_final_sample]
    rw [if_neg hrid, hex]
  · simp only [load_final_sample_keys]
    rw [if_neg hrid]
  · simp only [load_final_sample_meta]
    rw [if_neg hrid, hex]

/-- C2 witness: a concrete store holding a persisted sample for run "r"; the
call returns the stored members and metadata for any pool argument. -/
theorem ensure_final_sample_existing_returns_stored_witness :
    ¬pyStrip "r" = "" ∧
    (FinalStore.mk
        [⟨"r", 7, 2, 1, pool_keys_sha256 ["a", "b"], "t0"⟩]
        {("r", "a")}).final_sample_runs.find?
        (fun x => x.run_id == pyStrip "r") =
      some ⟨"r", 7, 2, 1, pool_keys_sha256 ["a", "b"], "t0"⟩ ∧
    ensure_final_sample
        (FinalStore.mk
          [⟨"r", 7, 2, 1, pool_keys_sha256 ["a", "b"], "t0"⟩]
          {("r", "a")})
        "r" ["a", "b", "c", "d"] 99 4 3 true "t9" =
      .ok (FinalStore.mk
          [⟨"r", 7, 2, 1, pool_keys_sha256 ["a", "b"], "t0"⟩]
          {("r", "a")},
        ((FinalStore.mk
            [⟨"r", 7, 2, 1, pool_keys_sha256 ["a", "b"], "t0"⟩]
            {("r", "a")}).final_samples.filter
            (fun p => p.1 = pyStrip "r")).image Prod.snd,
        some ⟨"r", 7, 2, 1, pool_keys_sha256 ["a", "b"], "t0"⟩) := by
  refine ⟨by decide, by decide, ?_⟩
  exact (ensure_final_sample_existing_returns_stored _ "r" _ ["a", "b", "c", "d"]
    99 4 3 true "t9" (by decide) (by decide)).1

/-- C3 counterexample: with a persisted sample for run "r" drawn from pool
["k1", "k2"], a second attempt with persist requested against the differing
pool ["k1", "k2", "k3"] does not raise: it returns `.ok` with the stored
sample and the unchanged store, rather than an error. -/
theorem ensure_final_sample_differing_pool_is_not_error :
    pool_keys_sha256 ["k1", "k2", "k3"] ≠ pool_keys_sha256 ["k1", "k2"] ∧
    ensure_final_sample
        (FinalStore.mk
          [⟨"r", 42, 2, 1, pool_keys_sha256 ["k1", "k2"], "t0"⟩]
          {("r", "k1")})
        "r" ["k1", "k2", "k3"] 42 3 1 true "t1" =
      .ok (FinalStore.mk
          [⟨"r", 42, 2, 1, pool_keys_sha256 ["k1", "k2"], "t0"⟩]
          {("r", "k1")},
        {"k1"},
        some ⟨"r", 42, 2, 1, pool_keys_sha256 ["k1", "k2"], "t0"⟩) := by
  constructor
  · decide
  · decide

/-- C3 amended: a second attempt to write a final sample for a run id whose
sample is already persisted — even with persist requested and a pool whose
hash differs from the stored one — is not an error and is not an overwrite:
the call returns the originally stored member set and metadata and the store
is unchanged, so the final sample is written at most once per run id. -/
theorem ensure_final_sample_second_attempt_no_overwrite (store : FinalStore)
    (run_id : String) (m : FinalSampleMeta) (pool_keys : List String)
    (sampling_seed pool_n final_n : Int) (now : String)
    (hrid : ¬pyStrip run_id = "")
    (hex : store.final_sample_runs.find? (fun x => x.run_id == pyStrip run_id) = some m)
    (hdiff : pool_keys_sha256 pool_keys ≠ m.pool_keys_sha256) :
    ensure_final_sample store run_id pool_keys sampling_seed pool_n final_n true now =
      .ok (store,
        (store.final_samples.filter (fun p => p.1 = pyStrip run_id)).image Prod.snd,
        some m) := by
  simp only [ensure_final_sample]
  rw [if_neg hrid, hex]

/-- C3 witness for the amended statement: the concrete differing-pool call of
the counterexample satisfies the hypotheses and returns the stored sample. -/
theorem ensure_final_sample_second_attempt_no_overwrite_witness :
    ¬pyStrip "r" = "" ∧
    (FinalStore.mk
        [⟨"r", 42, 2, 1, pool_keys_sha256 ["k1", "k2"], "t0"⟩]
        {("r", "k1")}).final_sample_runs.find?
        (fun x => x.run_id == pyStrip "r") =
      some ⟨"r", 42, 2, 1, pool_keys_sha256 ["k1", "k2"], "t0"⟩ ∧
    pool_keys_sha256 ["k1", "k2", "k3"] ≠
      (FinalSampleMeta.mk "r" 42 2 1 (pool_keys_sha256 ["k1", "k2"]) "t0").pool_keys_sha256 ∧
    ensure_final_sample
        (FinalStore.mk
          [⟨"r", 42, 2, 1, pool_keys_sha256 ["k1", "k2"], "t0"⟩]
          {("r", "k1")})
        "r" ["k1", "k2", "k3"] 42 3 1 true "t1" =
      .ok (FinalStore.mk
          [⟨"r", 42, 2, 1, pool_keys_sha256 ["k1", "k2"], "t0"⟩]
          {("r", "k1")},
        ((FinalStore.mk
            [⟨"r", 42, 2, 1, pool_keys_sha256 ["k1", "k2"], "t0"⟩]
            {("r", "k1")}).final_samples.filter
            (fun p => p.1 = pyStrip "r")).image Prod.snd,
        some ⟨"r", 42, 2, 1, pool_keys_sha256 ["k1", "k2"], "t0"⟩) := by
  refine ⟨by decide, by decide, by decide, ?_⟩
  exact ensure_final_sample_second_attempt_no_overwrite _ "r" _ ["k1", "k2", "k3"]
    42 3 1 "t1" (by decide) (by decide) (by decide)

/-! ### Stagnation tracker (src/ig_corpus/stagnation.py) -/

/-- Embedding of `stagnation.StagnationTracker`'s state: the window of recent
values and the count of values seen so far.  The constructor validation
(`window_size` positive, `min_new_total` non-negative) is carried as
hypotheses of the theorems; `min_new_total` is a `Nat` because the validated
value is non-negative. -/
structure StagnationTracker where
  window_size : Nat
  min_new_total : Nat
  values : List Int
  seen : Nat
deriving DecidableEq, Repr

/-- Embedding of `StagnationTracker.push`: append the value, evict the oldest
entries while the window exceeds `window_size` (modelled by dropping the
excess prefix), and report stagnation exactly when the window is full, the
warm-up guard for `min_new_total > window_size` has passed, and the window sum
is strictly below `min_new_total`. -/
def StagnationTracker.push (t : StagnationTracker) (v : Int) :
    Bool × StagnationTracker :=
  let seen := t.seen + 1
  let appended := t.values ++ [v]
  let window := appended.drop (appended.length - t.window_size)
  let t2 : StagnationTracker :=
    { t with values := window, seen := seen }
  let result :=
    if window.length < t.window_size then false
    else if t.min_new_total > t.window_size ∧ seen < t.min_new_total then false
    else decide (window.sum < (t.min_new_total : Int))
  (result, t2)

/-- Embedding of `StagnationTracker.total`. -/
def StagnationTracker.total (t : StagnationTracker) : Int := t.values.sum

/-- Freshly constructed tracker, as `StagnationTracker(window_size, min_new_total)`
builds it: empty window, zero seen. -/
def StagnationTracker.init (window_size min_new_total : Nat) : StagnationTracker :=
  ⟨window_size, min_new_total, [], 0⟩

/-- Result of pushing a whole list of values in order, keeping the state. -/
def StagnationTracker.pushMany (t : StagnationTracker) (vs : List Int) :
    StagnationTracker :=
  vs.foldl (fun acc v => (acc.push v).2) t

/-- Results of every push in a run starting from a fresh tracker. -/
def stagnationResults (window_size min_new_total : Nat) (vs : List Int) :
    List Bool :=
  (vs.foldl
    (fun acc v =>
      let r := (acc.2.push v)
      (acc.1 ++ [r.1], r.2))
    (([] : List Bool), StagnationTracker.init window_size min_new_total)).1

lemma window_step (ws : Nat) (hws : 1 ≤ ws) (xs : List Int) (v : Int) :
    (xs.drop (xs.length - ws) ++ [v]).drop
        ((xs.drop (xs.length - ws) ++ [v]).length - ws) =
      (xs ++ [v]).drop ((xs ++ [v]).length - ws) := by
  simp only [List.length_append, List.length_singleton, List.length_drop]
  by_cases hlt : xs.length < ws
  · have h0 : xs.length - ws = 0 := by omega
    rw [h0, List.drop_zero]
    have h1 : xs.length - 0 + 1 - ws = xs.length + 1 - ws := by omega
    rw [h1]
  · push_neg at hlt
    have h1 : xs.length - (xs.length - ws) + 1 - ws = 1 := by omega
    rw [h1]
    rw [List.drop_append_of_le_length (by rw [List.length_drop]; omega),
      List.drop_append_of_le_length (by omega), List.drop_drop]
    congr 2
    omega

lemma stagnation_push_snd (t : StagnationTracker) (v : Int) :
    (t.push v).2 =
      ⟨t.window_size, t.min_new_total,
        (t.values ++ [v]).drop ((t.values ++ [v]).length - t.window_size),
        t.seen + 1⟩ := rfl

lemma stagnation_state_after (ws mnt : Nat) (hws : 1 ≤ ws) (vs : List Int) :
    (StagnationTracker.init ws mnt).pushMany vs =
      ⟨ws, mnt, vs.drop (vs.length - ws), vs.length⟩ := by
  induction vs using List.reverseRecOn with
  | nil => simp [StagnationTracker.pushMany, StagnationTracker.init]
  | append_singleton xs v ih =>
    have hstep : (StagnationTracker.init ws mnt).pushMany (xs ++ [v]) =
        (((StagnationTracker.init ws mnt).pushMany xs).push v).2 := by
      simp [StagnationTracker.pushMany]
    rw [hstep, ih, stagnation_push_snd]
    simp only
    refine congrArg₂ (fun w n => StagnationTracker.mk ws mnt w n) ?_ (by simp)
    exact window_step ws hws xs v

/-- C4: for every `window_size ≥ 1`, `min_new_total ≥ 0` and every pushed
history, the next push returns true exactly when the window holds
`window_size` values, the warm-up guard for `min_new_total > window_size` has
seen at least `min_new_total` pushes, and the current window sum is strictly
below `min_new_total`; moreover with window_size 2 and min_new_total 1,
pushing 0 then 0 returns false then true, while with min_new_total 2 pushing
1, 1 never returns true. -/
theorem stagnation_push_spec (ws mnt : Nat) (vs : List Int) (v : Int)
    (hws : 1 ≤ ws) :
    ((((StagnationTracker.init ws mnt).pushMany vs).push v).1 = true ↔
      (ws ≤ vs.length + 1 ∧ (ws < mnt → mnt ≤ vs.length + 1) ∧
        ((vs ++ [v]).drop ((vs ++ [v]).length - ws)).sum < (mnt : Int))) ∧
    stagnationResults 2 1 [0, 0] = [false, true] ∧
    stagnationResults 2 2 [1, 1] = [false, false] := by
  refine ⟨?_, by decide, by decide⟩
  rw [stagnation_state_after ws mnt hws vs]
  show (if ((vs.drop (vs.length - ws) ++ [v]).drop
        ((vs.drop (vs.length - ws) ++ [v]).length - ws)).length < ws then false
      else if mnt > ws ∧ vs.length + 1 < mnt then false
      else decide (((vs.drop (vs.length - ws) ++ [v]).drop
        ((vs.drop (vs.length - ws) ++ [v]).length - ws)).sum < (mnt : Int))) = true ↔ _
  rw [window_step ws hws vs v]
  have hwinlen : ((vs ++ [v]).drop ((vs ++ [v]).length - ws)).length =
      vs.length + 1 - (vs.length + 1 - ws) := by
    rw [List.length_drop]; simp
  by_cases h1 : ((vs ++ [v]).drop ((vs ++ [v]).length - ws)).length < ws
  · rw [if_pos h1]
    simp only [Bool.false_eq_true, false_iff]
    rintro ⟨ha, -, -⟩
    rw [hwinlen] at h1
    omega
  · rw [if_neg h1]
    have hle : ws ≤ vs.length + 1 := by
      rw [hwinlen] at h1
      omega
    by_cases h2 : mnt > ws ∧ vs.length + 1 < mnt
    · rw [if_pos h2]
      simp only [Bool.false_eq_true, false_iff]
      rintro ⟨-, hb, -⟩
      have := hb h2.1
      omega
    · rw [if_neg h2]
      simp only [decide_eq_true_eq]
      constructor
      · intro hsum
        refine ⟨hle, ?_, hsum⟩
        intro hlt
        rcases Decidable.not_and_iff_or_not.mp h2 with h | h
        · omega
        · omega
      · rintro ⟨-, -, hsum⟩
        exact hsum

/-- C4 witness: the concrete history of the claim: window_size 2,
min_new_total 1, after pushing 0 once, pushing 0 again returns true, and the
characterization holds at that input. -/
theorem stagnation_push_spec_witness :
    1 ≤ 2 ∧
    (((((StagnationTracker.init 2 1).pushMany [0]).push 0).1 = true ↔
      (2 ≤ [(0 : Int)].length + 1 ∧ (2 < 1 → 1 ≤ [(0 : Int)].length + 1) ∧
        (([(0 : Int)] ++ [0]).drop (([(0 : Int)] ++ [0]).length - 2)).sum < (1 : Int))) ∧
      stagnationResults 2 1 [0, 0] = [false, true] ∧
      stagnationResults 2 2 [1, 1] = [false, false]) :=
  ⟨by decide, stagnation_push_spec 2 1 [0] 0 (by decide)⟩

/-! ### Dominance guard (src/ig_corpus/loop.py) -/

/-- Embedding of `llm_schema.LanguageResult`; float confidences are modelled
as rationals, which the guard never inspects. -/
structure LanguageResult where
  is_english : Bool
  confidence : Rat
deriving DecidableEq, Repr

/-- Embedding of `llm_schema.TopicResult`. -/
structure TopicResult where
  is_bodyweight_calisthenics : Bool
  confidence : Rat
  topic_notes : String
deriving DecidableEq, Repr

/-- Embedding of `llm_schema.CommercialResult`. -/
structure CommercialResult where
  is_exclusively_commercial : Bool
  signals : List String
deriving DecidableEq, Repr

/-- Embedding of `llm_schema.CaptionQualityResult`. -/
structure CaptionQualityResult where
  is_analyzable : Bool
  issues : List String
deriving DecidableEq, Repr

/-- Embedding of `llm_schema.TagResult`. -/
structure TagResult where
  genre : String
  narrative_labels : List String
  discourse_moves : List String
  neoliberal_signals : List String
deriving DecidableEq, Repr

/-- Embedding of `llm_schema.LLMDecision`. -/
structure LLMDecision where
  eligible : Bool
  eligibility_reasons : List String
  language : LanguageResult
  topic : TopicResult
  commercial : CommercialResult
  caption_quality : CaptionQualityResult
  tags : TagResult
  overall_confidence : Rat
deriving DecidableEq, Repr

/-- Truthiness of a Python `str | None` value: non-None and non-empty. -/
def truthy : Option String → Bool
  | none => false
  | some s => s ≠ ""

/-- Owner key computation of `_apply_dominance_guard` (and of
`_load_existing_counters`): username keyed case-folded, falling back to the
numeric id. -/
def ownerKey (owner_username owner_id : Option String) : Option String :=
  if truthy owner_username then
    some ("user:" ++ caseFold (owner_username.getD ""))
  else if truthy owner_id then
    some ("user_id:" ++ owner_id.getD "")
  else none

/-- Per-owner counters; a Python `Counter` defaults missing keys to zero. -/
def UserCounts : Type := String → Nat

/-- Embedding of `loop._apply_dominance_guard`.  The mutated `Counter` is
threaded explicitly: the function returns the (possibly flipped) decision
together with the updated counters. -/
def apply_dominance_guard (decision : LLMDecision)
    (owner_username owner_id : Option String) (max_posts_per_user : Int)
    (user_counts : UserCounts) : LLMDecision × UserCounts :=
  if decision.eligible = false then (decision, user_counts)
  else if max_posts_per_user ≤ 0 then (decision, user_counts)
  else
    match ownerKey owner_username owner_id with
    | none => (decision, user_counts)
    | some user_key =>
      if (user_counts user_key : Int) ≥ max_posts_per_user then
        ({ decision with
            eligible := false,
            eligibility_reasons := decision.eligibility_reasons ++ ["dominance_guard"] },
          user_counts)
      else
        (decision, fun k => if k = user_key then user_counts k + 1 else user_counts k)

/-- C5: for an eligible decision with cap > 0 and an identifiable owner, the
guard flips the decision to ineligible and appends the "dominance_guard"
marker exactly when the owner has reached the cap (leaving the counters
untouched); below the cap it returns the decision unchanged and increments
only the owner's counter; a cap of 0 is a no-op; and with cap 1, of two
eligible decisions of the same owner exactly one stays eligible. -/
theorem apply_dominance_guard_spec (d d2 : LLMDecision)
    (owner_username owner_id : Option String) (cap : Int)
    (counts : UserCounts) (key : String)
    (helig : d.eligible = true)
    (hcap : 0 < cap)
    (hkey : ownerKey owner_username owner_id = some key) :
    (((counts key : Int) ≥ cap →
        apply_dominance_guard d owner_username owner_id cap counts =
          ({ d with
              eligible := false,
              eligibility_reasons := d.eligibility_reasons ++ ["dominance_guard"] },
            counts)) ∧
      ((counts key : Int) < cap →
        apply_dominance_guard d owner_username owner_id cap counts =
          (d, fun k => if k = key then counts k + 1 else counts k))) ∧
    (∀ e cnts, apply_dominance_guard e owner_username owner_id 0 cnts = (e, cnts)) ∧
    (counts key = 0 → cap = 1 → d2.eligible = true →
      ((apply_dominance_guard d owner_username owner_id cap counts).1.eligible = true ∧
        (apply_dominance_guard d2 owner_username owner_id cap
            (apply_dominance_guard d owner_username owner_id cap counts).2).1.eligible
          = false ∧
        (apply_dominance_guard d2 owner_username owner_id cap
            (apply_dominance_guard d owner_username owner_id cap counts).2).1.eligibility_reasons
          = d2.eligibility_reasons ++ ["dominance_guard"])) := by
  refine ⟨⟨?_, ?_⟩, ?_, ?_⟩
  · intro hge
    rw [apply_dominance_guard]
    rw [if_neg (by simp [helig]), if_neg (by omega), hkey]
    dsimp only
    rw [if_pos hge]
  · intro hlt
    rw [apply_dominance_guard]
    rw [if_neg (by simp [helig]), if_neg (by omega), hkey]
    dsimp only
    rw [if_neg (by omega)]
  · intro e cnts
    rw [apply_dominance_guard]
    by_cases he : e.eligible = false
    · rw [if_pos he]
    · rw [if_neg he, if_pos (by omega)]
  · intro h0 h1 helig2
    have hfirst : apply_dominance_guard d owner_username owner_id cap counts =
        (d, fun k => if k = key then counts k + 1 else counts k) := by
      rw [apply_dominance_guard]
      rw [if_neg (by simp [helig]), if_neg (by omega), hkey]
      dsimp only
      rw [if_neg (by rw [h0]; omega)]
    have hcnt2 : ((fun k => if k = key then counts k + 1 else counts k) key : Int) ≥ cap := by
      simp [h0, h1]
    have hsecond : apply_dominance_guard d2 owner_username owner_id cap
        (fun k => if k = key then counts k + 1 else counts k) =
        ({ d2 with
            eligible := false,
            eligibility_reasons := d2.eligibility_reasons ++ ["dominance_guard"] },
          (fun k => if k = key then counts k + 1 else counts k)) := by
      rw [apply_dominance_guard]
      rw [if_neg (by simp [helig2]), if_neg (by omega), hkey]
      dsimp only
      rw [if_pos hcnt2]
    rw [hfirst]
    dsimp only
    rw [hsecond]
    exact ⟨helig, rfl, rfl⟩

/-- C5 witness: concrete decisions and counters instantiating the guard
specification with cap 1 and an owner named "Alice". -/
theorem apply_dominance_guard_spec_witness :
    (LLMDecision.mk true [] ⟨true, 1⟩ ⟨true, 1, ""⟩ ⟨false, []⟩ ⟨true, []⟩
        ⟨"g", [], [], []⟩ 1).eligible = true ∧
    (0 : Int) < 1 ∧
    ownerKey (some "Alice") none = some "user:alice" ∧
    (((fun _ => 0 : UserCounts) "user:alice" : Int) < 1 →
      apply_dominance_guard
          (LLMDecision.mk true [] ⟨true, 1⟩ ⟨true, 1, ""⟩ ⟨false, []⟩ ⟨true, []⟩
            ⟨"g", [], [], []⟩ 1)
          (some "Alice") none 1 (fun _ => 0) =
        ((LLMDecision.mk true [] ⟨true, 1⟩ ⟨true, 1, ""⟩ ⟨false, []⟩ ⟨true, []⟩
            ⟨"g", [], [], []⟩ 1),
          fun k => if k = "user:alice" then (fun _ => 0 : UserCounts) k + 1
            else (fun _ => 0 : UserCounts) k)) := by
  refine ⟨rfl, by norm_num, by decide, ?_⟩
  exact (apply_dominance_guard_spec
    (LLMDecision.mk true [] ⟨true, 1⟩ ⟨true, 1, ""⟩ ⟨false, []⟩ ⟨true, []⟩
      ⟨"g", [], [], []⟩ 1)
    (LLMDecision.mk true [] ⟨true, 1⟩ ⟨true, 1, ""⟩ ⟨false, []⟩ ⟨true, []⟩
      ⟨"g", [], [], []⟩ 1)
    (some "Alice") none 1 (fun _ => 0) "user:alice" rfl (by norm_num)
    (by decide)).1.2

/-- C10: an eligible decision whose post has neither an owner username nor an
owner id passes through the dominance guard completely unchanged, with no
counter incremented, for every cap and every prior counter state. -/
theorem apply_dominance_guard_ownerless (d : LLMDecision)
    (owner_username owner_id : Option String) (cap : Int) (counts : UserCounts)
    (helig : d.eligible = true)
    (hu : truthy owner_username = false)
    (hi : truthy owner_id = false) :
    apply_dominance_guard d owner_username owner_id cap counts = (d, counts) := by
  rw [apply_dominance_guard]
  rw [if_neg (by simp [helig])]
  by_cases hcap : cap ≤ 0
  · rw [if_pos hcap]
  · rw [if_neg hcap]
    have hk : ownerKey owner_username owner_id = none := by
      rw [ownerKey, if_neg (by simp [hu]), if_neg (by simp [hi])]
    rw [hk]

/-- C10 witness: a concrete ownerless eligible decision (username None, id the
empty string) is unchanged under cap 3 and non-trivial prior counters. -/
theorem apply_dominance_guard_ownerless_witness :
    (LLMDecision.mk true ["ok"] ⟨true, 1⟩ ⟨true, 1, ""⟩ ⟨false, []⟩ ⟨true, []⟩
        ⟨"g", [], [], []⟩ 1).eligible = true ∧
    truthy none = false ∧
    truthy (some "") = false ∧
    apply_dominance_guard
        (LLMDecision.mk true ["ok"] ⟨true, 1⟩ ⟨true, 1, ""⟩ ⟨false, []⟩ ⟨true, []⟩
          ⟨"g", [], [], []⟩ 1)
        none (some "") 3 (fun _ => 5) =
      ((LLMDecision.mk true ["ok"] ⟨true, 1⟩ ⟨true, 1, ""⟩ ⟨false, []⟩ ⟨true, []⟩
          ⟨"g", [], [], []⟩ 1),
        fun _ => 5) :=
  ⟨rfl, rfl, by decide,
    apply_dominance_guard_ownerless _ none (some "") 3 (fun _ => 5) rfl rfl
      (by decide)⟩

/-! ### Term queue (src/ig_corpus/query_queue.py) -/

/-- Embedding of `query_queue.normalize_term`: strip whitespace, strip one
leading `#`, strip again.  The startswith/slice pair is written over the
character list so that it evaluates by kernel reduction. -/
def normalize_term (value : String) : String :=
  match (pyStrip value).data with
  | '#' :: rest => pyStrip (String.mk rest)
  | _ => pyStrip value

/-- Embedding of `query_queue.TermQueue`'s state: the FIFO of (original
casing) terms and the set of case-folded keys currently queued. -/
structure TermQueue where
  queue : List String
  present : Finset String
deriving DecidableEq

/-- Embedding of `TermQueue.add`: normalize, refuse empty, refuse a term whose
case-folded key is currently queued, else enqueue. -/
def TermQueue.add (q : TermQueue) (term : String) : Bool × TermQueue :=
  let norm := normalize_term term
  if norm = "" then (false, q)
  else
    let key := caseFold norm
    if key ∈ q.present then (false, q)
    else (true, ⟨q.queue ++ [norm], insert key q.present⟩)

/-- Embedding of `TermQueue.add_many`. -/
def TermQueue.add_many (q : TermQueue) (terms : List String) : Nat × TermQueue :=
  terms.foldl
    (fun acc t =>
      let r := acc.2.add t
      (acc.1 + (if r.1 then 1 else 0), r.2))
    (0, q)

/-- Popping loop of `TermQueue.pop_batch`: remove `n` terms from the front,
discarding each term's case-folded key from the presence set. -/
def TermQueue.popAux : TermQueue → Nat → List String × TermQueue
  | q, 0 => ([], q)
  | ⟨[], pres⟩, _ + 1 => ([], ⟨[], pres⟩)
  | ⟨t :: rest, pres⟩, n + 1 =>
    let r := TermQueue.popAux ⟨rest, pres.erase (caseFold t)⟩ n
    (t :: r.1, r.2)

/-- Embedding of `TermQueue.pop_batch`: a non-positive size is a `ValueError`;
otherwise pop `min size (queue length)` terms FIFO. -/
def TermQueue.pop_batch (q : TermQueue) (size : Int) :
    Except ErrC (List String × TermQueue) :=
  if size ≤ 0 then .error (.valueError "size must be positive")
  else .ok (q.popAux (min size.toNat q.queue.length))

/-- Embedding of `TermQueue.present_keys`. -/
def TermQueue.present_keys (q : TermQueue) : Finset String := q.present

/-- Well-formedness invariant maintained by the queue (established by the
empty queue and preserved by add and pop): the case-folded keys of the queued
terms are pairwise distinct and the presence set is exactly their set. -/
def TermQueue.WF (q : TermQueue) : Prop :=
  (q.queue.map caseFold).Nodup ∧ q.present = (q.queue.map caseFold).toFinset

lemma termQueue_wf_empty : TermQueue.WF ⟨[], ∅⟩ := by
  constructor <;> simp [TermQueue.WF]

lemma termQueue_add_wf (q : TermQueue) (t : String) (h : q.WF) :
    (q.add t).2.WF := by
  obtain ⟨hnd, hpres⟩ := h
  rw [TermQueue.add]
  by_cases h1 : normalize_term t = ""
  · rw [if_pos h1]; exact ⟨hnd, hpres⟩
  · rw [if_neg h1]
    by_cases h2 : caseFold (normalize_term t) ∈ q.present
    · rw [if_pos h2]; exact ⟨hnd, hpres⟩
    · rw [if_neg h2]
      refine ⟨?_, ?_⟩
      · simp only [List.map_append, List.map_cons, List.map_nil]
        rw [List.nodup_append]
        refine ⟨hnd, List.nodup_singleton _, ?_⟩
        intro a ha hb
        simp only [List.mem_singleton] at hb
        subst hb
        exact h2 (hpres ▸ List.mem_toFinset.mpr ha)
      · simp only [List.map_append, List.map_cons, List.map_nil]
        rw [List.toFinset_append]
        rw [hpres]
        simp [Finset.insert_eq, Finset.union_comm]

lemma termQueue_popAux_spec (n : Nat) (qs : List String) (pres : Finset String)
    (h : TermQueue.WF ⟨qs, pres⟩) (hn : n ≤ qs.length) :
    (TermQueue.popAux ⟨qs, pres⟩ n).1 = qs.take n ∧
    (TermQueue.popAux ⟨qs, pres⟩ n).2.queue = qs.drop n ∧
    (TermQueue.popAux ⟨qs, pres⟩ n).2.WF := by
  induction n generalizing qs pres with
  | zero =>
    match qs with
    | [] => exact ⟨rfl, rfl, h⟩
    | t :: rest => exact ⟨rfl, rfl, h⟩
  | succ n ih =>
    obtain ⟨hnd, hpres⟩ := h
    match qs with
    | [] => simp at hn
    | t :: rest =>
      simp only [List.map_cons] at hnd hpres
      have hq1wf : TermQueue.WF ⟨rest, pres.erase (caseFold t)⟩ := by
        refine ⟨(List.nodup_cons.mp hnd).2, ?_⟩
        show pres.erase (caseFold t) = _
        rw [hpres, List.toFinset_cons,
          Finset.erase_insert (by
            intro hmem
            exact (List.nodup_cons.mp hnd).1 (List.mem_toFinset.mp hmem))]
      have hn1 : n ≤ rest.length := by simpa using hn
      obtain ⟨ha, hb, hc⟩ := ih rest (pres.erase (caseFold t)) hq1wf hn1
      refine ⟨?_, ?_, ?_⟩
      · show t :: (TermQueue.popAux ⟨rest, pres.erase (caseFold t)⟩ n).1 = _
        rw [ha, List.take_succ_cons]
      · show (TermQueue.popAux ⟨rest, pres.erase (caseFold t)⟩ n).2.queue = _
        rw [hb, List.drop_succ_cons]
      · exact hc

lemma termQueue_add_true (q : TermQueue) (t : String)
    (h1 : ¬normalize_term t = "")
    (h2 : caseFold (normalize_term t) ∉ q.present) :
    q.add t =
      (true, ⟨q.queue ++ [normalize_term t],
        insert (caseFold (normalize_term t)) q.present⟩) := by
  rw [TermQueue.add]
  rw [if_neg h1, if_neg h2]

lemma termQueue_add_false_of_mem (q : TermQueue) (u : String)
    (h2 : caseFold (normalize_term u) ∈ q.present) : (q.add u).1 = false := by
  rw [TermQueue.add]
  by_cases h1 : normalize_term u = ""
  · rw [if_pos h1]
  · rw [if_neg h1, if_pos h2]

/-- C6: deduplication is scoped to currently queued terms.  After a
successful `add t` on a well-formed queue, any term with the same normalized
case-folded key is refused while `t` is queued; once a pop_batch has removed
`t`, such a term is accepted again (returns true) and is enqueued. -/
theorem term_queue_dedup_scope (q : TermQueue) (t u : String) (size : Int)
    (out : List String) (q2 : TermQueue)
    (hwf : q.WF)
    (hadd : (q.add t).1 = true)
    (hkey : caseFold (normalize_term u) = caseFold (normalize_term t))
    (hnu : ¬normalize_term u = "") :
    (((q.add t).2.add u).1 = false) ∧
    ((q.add t).2.pop_batch size = .ok (out, q2) →
      normalize_term t ∈ out →
      (q2.add u).1 = true ∧
      (q2.add u).2.queue = q2.queue ++ [normalize_term u]) := by
  have h1 : ¬normalize_term t = "" := by
    intro hc
    rw [TermQueue.add, if_pos hc] at hadd
    exact Bool.false_ne_true hadd
  have h2 : caseFold (normalize_term t) ∉ q.present := by
    intro hc
    rw [TermQueue.add, if_neg h1, if_pos hc] at hadd
    exact Bool.false_ne_true hadd
  have haddeq := termQueue_add_true q t h1 h2
  constructor
  · rw [haddeq]
    exact termQueue_add_false_of_mem _ u
      (by rw [hkey]; exact Finset.mem_insert_self _ _)
  · intro hpop hmem
    have hq1wf : (q.add t).2.WF := termQueue_add_wf q t hwf
    rw [TermQueue.pop_batch] at hpop
    by_cases hs : size ≤ 0
    · rw [if_pos hs] at hpop
      exact absurd hpop (by simp)
    · rw [if_neg hs] at hpop
      have hpair : (q.add t).2.popAux (min size.toNat (q.add t).2.queue.length) =
          (out, q2) := by
        injection hpop
      have hmle : min size.toNat (q.add t).2.queue.length ≤ (q.add t).2.queue.length :=
        Nat.min_le_right _ _
      obtain ⟨ha, hb, hc⟩ := termQueue_popAux_spec
        (min size.toNat (q.add t).2.queue.length) (q.add t).2.queue (q.add t).2.present
        hq1wf hmle
      rw [hpair] at ha hb hc
      have hout : out =
          (q.add t).2.queue.take (min size.toNat (q.add t).2.queue.length) := ha
      have hq2queue : q2.queue =
          (q.add t).2.queue.drop (min size.toNat (q.add t).2.queue.length) := hb
      have hq2wf : q2.WF := hc
      have hkeymem : caseFold (normalize_term t) ∈
          ((q.add t).2.queue.take (min size.toNat (q.add t).2.queue.length)).map caseFold := by
        rw [← hout]
        exact List.mem_map_of_mem caseFold hmem
      have hnodup : ((q.add t).2.queue.map caseFold).Nodup := hq1wf.1
      have hnodup2 :
          (((q.add t).2.queue.take (min size.toNat (q.add t).2.queue.length)).map caseFold ++
            ((q.add t).2.queue.drop (min size.toNat (q.add t).2.queue.length)).map caseFold).Nodup := by
        rw [← List.map_append, List.take_append_drop]
        exact hnodup
      have hdisj : caseFold (normalize_term t) ∉
          ((q.add t).2.queue.drop (min size.toNat (q.add t).2.queue.length)).map caseFold :=
        fun hcon => (List.nodup_append.mp hnodup2).2.2 hkeymem hcon
      have hnotpres : caseFold (normalize_term u) ∉ q2.present := by
        rw [hkey, hq2wf.2, hq2queue]
        intro hcon
        exact hdisj (List.mem_toFinset.mp hcon)
      have := termQueue_add_true q2 u hnu hnotpres
      rw [this]
      exact ⟨rfl, rfl⟩

/-- C6 witness: adding "Foo" to the empty queue, popping it, then adding
"foo" succeeds, while adding "foo" before the pop is refused. -/
theorem term_queue_dedup_scope_witness :
    TermQueue.WF ⟨[], ∅⟩ ∧
    ((TermQueue.mk [] ∅).add "Foo").1 = true ∧
    caseFold (normalize_term "foo") = caseFold (normalize_term "Foo") ∧
    ¬normalize_term "foo" = "" ∧
    ((((TermQueue.mk [] ∅).add "Foo").2.add "foo").1 = false ∧
      (((TermQueue.mk [] ∅).add "Foo").2.pop_batch 1 =
          .ok (["Foo"], ⟨[], (insert (caseFold "Foo") ∅ : Finset String).erase (caseFold "Foo")⟩) →
        normalize_term "Foo" ∈ ["Foo"] →
        ((TermQueue.mk [] ((insert (caseFold "Foo") ∅ : Finset String).erase (caseFold "Foo"))).add "foo").1 = true ∧
        ((TermQueue.mk [] ((insert (caseFold "Foo") ∅ : Finset String).erase (caseFold "Foo"))).add "foo").2.queue =
          (TermQueue.mk [] ((insert (caseFold "Foo") ∅ : Finset String).erase (caseFold "Foo"))).queue ++
            [normalize_term "foo"])) := by
  refine ⟨termQueue_wf_empty, by decide, by decide, by decide, ?_⟩
  exact term_queue_dedup_scope ⟨[], ∅⟩ "Foo" "foo" 1 ["Foo"]
    ⟨[], (insert (caseFold "Foo") ∅ : Finset String).erase (caseFold "Foo")⟩
    termQueue_wf_empty (by decide) (by decide) (by decide)

/-! ### Dedup key (src/ig_corpus/dedupe.py, src/ig_corpus/post.py) -/

/-- Embedding of `post.NormalizedPost`. -/
structure NormalizedPost where
  url : String
  post_id : Option String := none
  short_code : Option String := none
  owner_username : Option String := none
  owner_id : Option String := none
  caption : Option String := none
  hashtags : List String := []
  mentions : List String := []
  alt : Option String := none
  type : Option String := none
  product_type : Option String := none
  is_sponsored : Option Bool := none
  timestamp : Option String := none
deriving DecidableEq, Repr

/-- Result of `urllib.parse.urlsplit` restricted to the fields the dedup code
reads. -/
structure UrlParts where
  scheme : String
  netloc : String
  path : String
  query : String
  fragment : String
deriving DecidableEq, Repr

/-- Locate the first `://` separator, returning the text before and after. -/
def breakSchemeSep : List Char → Option (List Char × List Char)
  | [] => none
  | ':' :: '/' :: '/' :: rest => some ([], rest)
  | c :: rest =>
    match breakSchemeSep rest with
    | none => none
    | some p => some (c :: p.1, p.2)

/-- Scheme validity test of `urllib.parse`: a letter followed by letters,
digits, `+`, `-` or `.`. -/
def validScheme : List Char → Bool
  | [] => false
  | c :: rest =>
    c.isAlpha && rest.all (fun d => d.isAlphanum || d == '+' || d == '-' || d == '.')

/-- Model of `urllib.parse.urlsplit` for the absolute-URL shapes the dedup
code distinguishes: a URL with a valid `scheme://netloc` prefix is split into
scheme, netloc (up to `/`, `?` or `#`), path (up to `?` or `#`), query (up to
`#`) and fragment; anything else is returned with empty scheme and netloc,
which is exactly the information `canonicalize_url` consumes. -/
def urlsplit (url : String) : UrlParts :=
  match breakSchemeSep url.data with
  | some (sch, rest) =>
    if validScheme sch then
      let netloc := rest.takeWhile (fun c => !(c == '/' || c == '?' || c == '#'))
      let rest2 := rest.dropWhile (fun c => !(c == '/' || c == '?' || c == '#'))
      let path := rest2.takeWhile (fun c => !(c == '?' || c == '#'))
      let rest3 := rest2.dropWhile (fun c => !(c == '?' || c == '#'))
      let query := (rest3.drop 1).takeWhile (fun c => !(c == '#'))
      let fragment :=
        match rest3 with
        | '#' :: fs => fs
        | _ => (rest3.drop 1).dropWhile (fun c => !(c == '#')) |>.drop 1
      ⟨String.mk sch, String.mk netloc, String.mk path, String.mk query,
        String.mk fragment⟩
    else ⟨"", "", url, "", ""⟩
  | none => ⟨"", "", url, "", ""⟩

/-- Model of Python `str.rstrip("/")`: drop every trailing slash. -/
def pyRstripSlash (s : String) : String :=
  String.mk (s.data.reverse.dropWhile (fun c => c == '/')).reverse

/-- Model of Python `str.lower`, as used on scheme and netloc. -/
def pyLower (s : String) : String := String.mk (s.data.map Char.toLower)

/-- Embedding of `dedupe.canonicalize_url`: empty input maps to empty; a URL
without a scheme/netloc parse keeps its text minus trailing slashes; otherwise
the scheme and host are lower-cased, a leading `www.` is stripped from the
host, the path loses its trailing slashes (an empty path becomes `/`) and the
query and fragment are dropped. -/
def canonicalize_url (url : String) : String :=
  let value := pyStrip url
  if value = "" then ""
  else
    let parts := urlsplit value
    if parts.scheme = "" ∨ parts.netloc = "" then pyRstripSlash value
    else
      let scheme := pyLower parts.scheme
      let netloc0 := pyLower parts.netloc
      let netloc :=
        match netloc0.data with
        | 'w' :: 'w' :: 'w' :: '.' :: rest => String.mk rest
        | _ => netloc0
      let path0 := pyRstripSlash parts.path
      let path := if path0 = "" then "/" else path0
      scheme ++ "://" ++ netloc ++ path

/-- Embedding of `dedupe.dedupe_key`: prefer the content id, then the short
code, then the canonicalized URL. -/
def dedupe_key (post : NormalizedPost) : String :=
  if truthy post.post_id then "id:" ++ post.post_id.getD ""
  else if truthy post.short_code then "shortcode:" ++ post.short_code.getD ""
  else "url:" ++ canonicalize_url post.url

/-- C7: the dedup key follows the fixed preference order (content id, then
short code, then canonicalized URL); canonicalization lower-cases scheme and
host, strips a leading `www.`, strips the trailing slash and drops query and
fragment; and the two items of the claim — id "1" with url
"https://x.com/p/1/" and id "1" with url "https://x.com/p/1/?utm=a" — both
produce the key "id:1". -/
theorem dedupe_key_spec (postA postB postC : NormalizedPost)
    (hA : truthy postA.post_id = true)
    (hB1 : truthy postB.post_id = false) (hB2 : truthy postB.short_code = true)
    (hC1 : truthy postC.post_id = false) (hC2 : truthy postC.short_code = false) :
    dedupe_key postA = "id:" ++ postA.post_id.getD "" ∧
    dedupe_key postB = "shortcode:" ++ postB.short_code.getD "" ∧
    dedupe_key postC = "url:" ++ canonicalize_url postC.url ∧
    canonicalize_url "HTTPS://WWW.X.com/p/1/?utm=a#frag" = "https://x.com/p/1" ∧
    dedupe_key { url := "https://x.com/p/1/", post_id := some "1" } = "id:1" ∧
    dedupe_key { url := "https://x.com/p/1/?utm=a", post_id := some "1" } = "id:1" := by
  refine ⟨?_, ?_, ?_, by decide, by decide, by decide⟩
  · rw [dedupe_key, if_pos hA]
  · rw [dedupe_key, if_neg (by rw [hB1]; exact Bool.false_ne_true), if_pos hB2]
  · rw [dedupe_key, if_neg (by rw [hC1]; exact Bool.false_ne_true),
      if_neg (by rw [hC2]; exact Bool.false_ne_true)]

/-- C7 witness: three concrete posts, one per preference tier, instantiate the
dedup-key specification. -/
theorem dedupe_key_spec_witness :
    truthy (NormalizedPost.mk "https://x.com/p/9/" (some "9") none none none none
        [] [] none none none none none).post_id = true ∧
    truthy (NormalizedPost.mk "https://x.com/p/sc/" none (some "SC") none none none
        [] [] none none none none none).post_id = false ∧
    truthy (NormalizedPost.mk "https://x.com/p/sc/" none (some "SC") none none none
        [] [] none none none none none).short_code = true ∧
    truthy (NormalizedPost.mk "https://www.X.com/p/u/" none none none none none
        [] [] none none none none none).post_id = false ∧
    truthy (NormalizedPost.mk "https://www.X.com/p/u/" none none none none none
        [] [] none none none none none).short_code = false ∧
    (dedupe_key (NormalizedPost.mk "https://x.com/p/9/" (some "9") none none none none
        [] [] none none none none none) =
      "id:" ++ (some "9").getD "" ∧
     dedupe_key (NormalizedPost.mk "https://x.com/p/sc/" none (some "SC") none none none
        [] [] none none none none none) =
      "shortcode:" ++ (some "SC").getD "" ∧
     dedupe_key (NormalizedPost.mk "https://www.X.com/p/u/" none none none none none
        [] [] none none none none none) =
      "url:" ++ canonicalize_url "https://www.X.com/p/u/" ∧
     canonicalize_url "HTTPS://WWW.X.com/p/1/?utm=a#frag" = "https://x.com/p/1" ∧
     dedupe_key { url := "https://x.com/p/1/", post_id := some "1" } = "id:1" ∧
     dedupe_key { url := "https://x.com/p/1/?utm=a", post_id := some "1" } = "id:1") := by
  refine ⟨by decide, by decide, by decide, by decide, by decide, ?_⟩
  exact dedupe_key_spec
    (NormalizedPost.mk "https://x.com/p/9/" (some "9") none none none none
      [] [] none none none none none)
    (NormalizedPost.mk "https://x.com/p/sc/" none (some "SC") none none none
      [] [] none none none none none)
    (NormalizedPost.mk "https://www.X.com/p/u/" none none none none none
      [] [] none none none none none)
    (by decide) (by decide) (by decide) (by decide) (by decide)

/-! ### Raw-item upsert (src/ig_corpus/storage.py) -/

/-- Embedding of one `raw_posts` row. -/
structure RawPostRow where
  post_key : String
  url : String
  actor_source : Option String
  raw_json : String
  fetched_at : String
deriving DecidableEq, Repr

/-- Source normalization of `upsert_raw_post`:
`(actor_source or "").strip() or None`. -/
def normalizeActorSource (actor_source : Option String) : Option String :=
  let t := pyStrip (actor_source.getD "")
  if t = "" then none else some t

/-- Timestamp defaulting of `upsert_raw_post`:
`(fetched_at or _utc_now_iso()).strip()`, with the clock passed as `now`. -/
def normalizeFetchedAt (fetched_at : Option String) (now : String) : String :=
  pyStrip (if truthy fetched_at then fetched_at.getD "" else now)

/-- Embedding of `SQLiteStateStore.upsert_raw_post`: validate key and url,
then INSERT .. ON CONFLICT(post_key) DO UPDATE with url, raw_json and
fetched_at overwritten and actor_source covered by
`COALESCE(excluded.actor_source, raw_posts.actor_source)`.  `raw_json` stands
for the serialized `raw_item` payload. -/
def upsert_raw_post (tbl : List RawPostRow) (post_key url : String)
    (raw_json : String) (actor_source : Option String)
    (fetched_at : Option String) (now : String) :
    Except ErrC (List RawPostRow) :=
  let key := pyStrip post_key
  let u := pyStrip url
  if key = "" ∨ u = "" then
    .error (.valueError "post_key and url must be non-empty")
  else
    let src := normalizeActorSource actor_source
    let ts := normalizeFetchedAt fetched_at now
    if (tbl.find? (fun r => r.post_key == key)).isSome then
      .ok (tbl.map (fun r =>
        if r.post_key = key then
          { r with
              url := u,
              actor_source := match src with | some s => some s | none => r.actor_source,
              raw_json := raw_json,
              fetched_at := ts }
        else r))
    else .ok (tbl ++ [⟨key, u, src, raw_json, ts⟩])

/-- C8: upserting the same post_key twice, starting from a table with no row
for that key, leaves exactly one row for the key; the second call's url,
payload and timestamp overwrite the first's, and its actor_source overwrites
only when non-null, a null one preserving the first call's value. -/
theorem upsert_raw_post_idempotent (tbl : List RawPostRow)
    (post_key u1 u2 j1 j2 : String) (src1 src2 : Option String)
    (ft1 ft2 : Option String) (now1 now2 : String)
    (hk : ¬pyStrip post_key = "")
    (hu1 : ¬pyStrip u1 = "") (hu2 : ¬pyStrip u2 = "")
    (hnone : ∀ r ∈ tbl, ¬r.post_key = pyStrip post_key) :
    upsert_raw_post tbl post_key u1 j1 src1 ft1 now1 =
      .ok (tbl ++ [⟨pyStrip post_key, pyStrip u1, normalizeActorSource src1, j1,
        normalizeFetchedAt ft1 now1⟩]) ∧
    upsert_raw_post
        (tbl ++ [⟨pyStrip post_key, pyStrip u1, normalizeActorSource src1, j1,
          normalizeFetchedAt ft1 now1⟩])
        post_key u2 j2 src2 ft2 now2 =
      .ok (tbl ++ [⟨pyStrip post_key, pyStrip u2,
        (match normalizeActorSource src2 with
          | some s => some s
          | none => normalizeActorSource src1), j2,
        normalizeFetchedAt ft2 now2⟩]) ∧
    (tbl ++ [(⟨pyStrip post_key, pyStrip u2,
        (match normalizeActorSource src2 with
          | some s => some s
          | none => normalizeActorSource src1), j2,
        normalizeFetchedAt ft2 now2⟩ : RawPostRow)]).filter
        (fun r => r.post_key == pyStrip post_key) =
      [⟨pyStrip post_key, pyStrip u2,
        (match normalizeActorSource src2 with
          | some s => some s
          | none => normalizeActorSource src1), j2,
        normalizeFetchedAt ft2 now2⟩] := by
  have hfindnil : tbl.find? (fun r => r.post_key == pyStrip post_key) = none := by
    rw [List.find?_eq_none]
    intro r hr
    simpa using hnone r hr
  refine ⟨?_, ?_, ?_⟩
  · rw [upsert_raw_post]
    rw [if_neg (by push_neg; exact ⟨hk, hu1⟩)]
    rw [if_neg (by rw [hfindnil]; simp)]
  · rw [upsert_raw_post]
    rw [if_neg (by push_neg; exact ⟨hk, hu2⟩)]
    rw [if_pos (by
      rw [List.find?_append, hfindnil]
      simp)]
    refine congrArg Except.ok ?_
    rw [List.map_append]
    refine congrArg₂ (· ++ ·) ?_ ?_
    · have hmapid : tbl.map (fun r =>
          if r.post_key = pyStrip post_key then
            { r with
                url := pyStrip u2,
                actor_source := match normalizeActorSource src2 with
                  | some s => some s
                  | none => r.actor_source,
                raw_json := j2,
                fetched_at := normalizeFetchedAt ft2 now2 }
          else r) = tbl.map id := by
        apply List.map_congr_left
        intro r hr
        rw [if_neg (hnone r hr)]
        rfl
      rw [hmapid, List.map_id]
    · simp
  · rw [List.filter_append]
    have h1 : tbl.filter (fun r => r.post_key == pyStrip post_key) = [] := by
      rw [List.filter_eq_nil_iff]
      intro r hr
      simpa using hnone r hr
    rw [h1]
    simp

/-- C8 witness: two concrete upserts of post key "p1" into the empty table;
the second supplies no actor_source and the stored row keeps the first's. -/
theorem upsert_raw_post_idempotent_witness :
    ¬pyStrip "p1" = "" ∧ ¬pyStrip "http://a" = "" ∧ ¬pyStrip "http://b" = "" ∧
    upsert_raw_post [] "p1" "http://a" "j1" (some "actorA") none "t1" =
      .ok [⟨pyStrip "p1", pyStrip "http://a", normalizeActorSource (some "actorA"),
        "j1", normalizeFetchedAt none "t1"⟩] ∧
    upsert_raw_post
        [⟨pyStrip "p1", pyStrip "http://a", normalizeActorSource (some "actorA"),
          "j1", normalizeFetchedAt none "t1"⟩]
        "p1" "http://b" "j2" none none "t2" =
      .ok [⟨pyStrip "p1", pyStrip "http://b",
        (match normalizeActorSource none with
          | some s => some s
          | none => normalizeActorSource (some "actorA")), "j2",
        normalizeFetchedAt none "t2"⟩] := by
  have h := upsert_raw_post_idempotent [] "p1" "http://a" "http://b" "j1" "j2"
    (some "actorA") none none none "t1" "t2" (by decide) (by decide) (by decide)
    (by intro r hr; simp at hr)
  exact ⟨by decide, by decide, by decide, by simpa using h.1, by simpa using h.2.1⟩

/-! ### Feedback-loop controller skeleton (src/ig_corpus/loop.py) -/

/-- Embedding of `loop.FeedbackLoopResult`. -/
structure FeedbackLoopResult where
  run_id : String
  status : String
  iterations : Nat
  raw_posts : Nat
  decisions : Nat
  eligible : Nat
deriving DecidableEq, Repr

/-- Controller-visible state threaded through `run_feedback_loop`'s iteration:
the three counters and the term queue.  External-collaborator work inside an
iteration (discovery, ingestion, labeling, expansion, stagnation fallback) is
abstracted as an arbitrary state transformer `body`, applied between the
termination checks of one iteration and the next. -/
structure LoopState where
  eligible_total : Nat
  raw_total : Nat
  decision_total : Nat
  queue : TermQueue
deriving DecidableEq

/-- The `for iteration in range(max_iterations)` loop of
`loop.run_feedback_loop`, with the in-loop termination checks in source
order: pool target, raw cap, batch pop with a one-shot seed refill, empty
queue, then the iteration body.  `remaining` counts loop turns left,
`iteration` is the current index; falling out of the loop yields the
`max_iterations` result with the configured cap as iteration count.  The
second component of the value counts how many times the body ran. -/
def runLoopAux (run_id : String) (pool_n max_raw_items : Nat)
    (run_batch_queries : Int) (seed_terms : List String) (max_iterations : Nat)
    (body : Nat → List String → LoopState → LoopState) :
    Nat → Nat → LoopState → Except ErrC (FeedbackLoopResult × Nat)
  | 0, _, st =>
    .ok (⟨run_id, "max_iterations", max_iterations, st.raw_total,
      st.decision_total, st.eligible_total⟩, 0)
  | remaining + 1, iteration, st =>
    if st.eligible_total ≥ pool_n then
      .ok (⟨run_id, "completed_pool", iteration, st.raw_total,
        st.decision_total, st.eligible_total⟩, 0)
    else if st.raw_total ≥ max_raw_items then
      .ok (⟨run_id, "max_raw_items", iteration, st.raw_total,
        st.decision_total, st.eligible_total⟩, 0)
    else
      match st.queue.pop_batch run_batch_queries with
      | .error e => .error e
      | .ok (batch0, q0) =>
        match
          (if batch0 = [] then
            (q0.add_many seed_terms).2.pop_batch run_batch_queries
          else .ok (batch0, q0)) with
        | .error e => .error e
        | .ok (batch, q1) =>
          if batch = [] then
            .ok (⟨run_id, "empty_query_queue", iteration, st.raw_total,
              st.decision_total, st.eligible_total⟩, 0)
          else
            let st2 := body iteration batch { st with queue := q1 }
            match runLoopAux run_id pool_n max_raw_items run_batch_queries
                seed_terms max_iterations body remaining (iteration + 1) st2 with
            | .error e => .error e
            | .ok (res, n) => .ok (res, n + 1)

/-- Embedding of the control flow of `loop.run_feedback_loop`: run the counted
loop from iteration 0 with the configured cap. -/
def run_feedback_loop (run_id : String) (pool_n max_raw_items : Nat)
    (run_batch_queries : Int) (seed_terms : List String) (max_iterations : Nat)
    (body : Nat → List String → LoopState → LoopState) (st : LoopState) :
    Except ErrC (FeedbackLoopResult × Nat) :=
  runLoopAux run_id pool_n max_raw_items run_batch_queries seed_terms
    max_iterations body max_iterations 0 st

lemma loop_terminal_helper (remaining max_iterations : Nat) {run_id status : String}
    {iteration raw dec elig : Nat} {res : FeedbackLoopResult} {n : Nat}
    (hok : (Except.ok ((⟨run_id, status, iteration, raw, dec, elig⟩ :
        FeedbackLoopResult), 0) : Except ErrC (FeedbackLoopResult × Nat)) =
      .ok (res, n))
    (hst : ¬status = "max_iterations") :
    n ≤ remaining ∧
    (res.status = "max_iterations" →
      n = remaining ∧ res.iterations = max_iterations) := by
  injection hok with h
  rw [Prod.mk.injEq] at h
  obtain ⟨hres, hn⟩ := h
  subst hn
  subst hres
  exact ⟨Nat.zero_le _, fun hs => absurd hs hst⟩

lemma runLoopAux_spec (run_id : String) (pool_n max_raw_items : Nat)
    (run_batch_queries : Int) (seed_terms : List String) (max_iterations : Nat)
    (body : Nat → List String → LoopState → LoopState) (remaining iteration : Nat)
    (st : LoopState) (res : FeedbackLoopResult) (n : Nat)
    (hok : runLoopAux run_id pool_n max_raw_items run_batch_queries seed_terms
      max_iterations body remaining iteration st = .ok (res, n)) :
    n ≤ remaining ∧
    (res.status = "max_iterations" →
      n = remaining ∧ res.iterations = max_iterations) := by
  induction remaining generalizing iteration st res n with
  | zero =>
    rw [runLoopAux] at hok
    injection hok with h
    rw [Prod.mk.injEq] at h
    obtain ⟨h1, h2⟩ := h
    subst h2
    exact ⟨le_refl 0, fun _ => ⟨rfl, by rw [← h1]⟩⟩
  | succ remaining ih =>
    rw [runLoopAux] at hok
    by_cases h1 : st.eligible_total ≥ pool_n
    · rw [if_pos h1] at hok
      exact loop_terminal_helper _ _ hok (by decide)
    · rw [if_neg h1] at hok
      by_cases h2 : st.raw_total ≥ max_raw_items
      · rw [if_pos h2] at hok
        exact loop_terminal_helper _ _ hok (by decide)
      · rw [if_neg h2] at hok
        match hpop : st.queue.pop_batch run_batch_queries with
        | .error e =>
          rw [hpop] at hok
          exact absurd hok (by simp)
        | .ok (batch0, q0) =>
          rw [hpop] at hok
          dsimp only at hok
          match hsec :
            (if batch0 = [] then
              (q0.add_many seed_terms).2.pop_batch run_batch_queries
            else .ok (batch0, q0)) with
          | .error e =>
            rw [hsec] at hok
            exact absurd hok (by simp)
          | .ok (batch, q1) =>
            rw [hsec] at hok
            dsimp only at hok
            by_cases h3 : batch = []
            · rw [if_pos h3] at hok
              exact loop_terminal_helper _ _ hok (by decide)
            · rw [if_neg h3] at hok
              match hrec : runLoopAux run_id pool_n max_raw_items
                  run_batch_queries seed_terms max_iterations body remaining
                  (iteration + 1)
                  (body iteration batch
                    { st with queue := q1 }) with
              | .error e =>
                rw [hrec] at hok
                exact absurd hok (by simp)
              | .ok (res2, n2) =>
                rw [hrec] at hok
                dsimp only at hok
                injection hok with h
                rw [Prod.mk.injEq] at h
                obtain ⟨hres, hn⟩ := h
                subst hres
                subst hn
                obtain ⟨hle, hmax⟩ := ih (iteration + 1) _ res2 n2 hrec
                refine ⟨by omega, fun hs => ?_⟩
                obtain ⟨ha, hb⟩ := hmax hs
                exact ⟨by omega, hb⟩

/-- C9: the feedback loop runs its body at most `max_iterations` times, and
whenever it terminates with status "max_iterations" the body ran exactly
`max_iterations` times and the reported iteration count equals the configured
cap exactly. -/
theorem run_feedback_loop_bounded (run_id : String) (pool_n max_raw_items : Nat)
    (run_batch_queries : Int) (seed_terms : List String) (max_iterations : Nat)
    (body : Nat → List String → LoopState → LoopState) (st : LoopState)
    (res : FeedbackLoopResult) (n : Nat)
    (hok : run_feedback_loop run_id pool_n max_raw_items run_batch_queries
      seed_terms max_iterations body st = .ok (res, n)) :
    n ≤ max_iterations ∧
    (res.status = "max_iterations" →
      n = max_iterations ∧ res.iterations = max_iterations) :=
  runLoopAux_spec run_id pool_n max_raw_items run_batch_queries seed_terms
    max_iterations body max_iterations 0 st res n hok

/-- C9 witness: a two-iteration run with an identity body and unreachable pool
and raw caps terminates with status "max_iterations", body run twice and the
reported iteration count equal to the cap 2. -/
theorem run_feedback_loop_bounded_witness :
    run_feedback_loop "r" 100 100 1 ["a"] 2 (fun _ _ s => s)
        ⟨0, 0, 0, ⟨["a"], {caseFold "a"}⟩⟩ =
      .ok (⟨"r", "max_iterations", 2, 0, 0, 0⟩, 2) ∧
    (2 ≤ 2 ∧
      ((FeedbackLoopResult.mk "r" "max_iterations" 2 0 0 0).status =
          "max_iterations" →
        2 = 2 ∧ (FeedbackLoopResult.mk "r" "max_iterations" 2 0 0 0).iterations = 2)) := by
  have hok : run_feedback_loop "r" 100 100 1 ["a"] 2 (fun _ _ s => s)
      ⟨0, 0, 0, ⟨["a"], {caseFold "a"}⟩⟩ =
      .ok (⟨"r", "max_iterations", 2, 0, 0, 0⟩, 2) := by decide
  exact ⟨hok, run_feedback_loop_bounded "r" 100 100 1 ["a"] 2 (fun _ _ s => s)
    ⟨0, 0, 0, ⟨["a"], {caseFold "a"}⟩⟩ ⟨"r", "max_iterations", 2, 0, 0, 0⟩ 2 hok⟩

end IgCorpus
